import Mathlib

/-!
Verification of the chunk planner / transcoder and gap-compensating Opus
encoder of the opus_gapless repository (src/chunk_transcoder.{hpp,cpp},
src/encoder.cpp, src/lpc.cpp).

Shallow embedding conventions:
* Machine integers (size_t, int64_t) are modelled as Nat / Int; the code
  performs no wrapping arithmetic on any path modelled here.
* The C++ Settings class stores length/overlap as seconds (float) and
  derives sample counts by truncation (float -> size_t / int64_t, both
  truncate the same nonnegative product).  The model takes the derived
  sample counts length_samples / overlap_samples as the primitive data,
  exactly as every modelled function consumes them.
* The decoder callback contract (chunk_transcoder.hpp, DecoderCallback)
  lets the callback deliver up to the requested number of samples; a model
  decoder is a list of successive response sizes, each clipped to the
  request.  An exhausted list delivers 0 samples, like a drained stream.
* Audio sample values never influence the control flow of the planner, so
  the planner model tracks sample counts only.  The LPC model (lpc.cpp)
  works on exact rationals: every double/float computation of the source is
  mapped to the corresponding exact operation on Q, abstracting IEEE
  rounding; decimal literals (1e-7, 0.008f, .999) become exact rationals.
-/

namespace OG

/-- Model of ChunkTranscoder::Settings (chunk_transcoder.hpp): only the two
derived sample quantities are relevant to the planner arithmetic. -/
structure Settings where
  length_samples : Nat
  overlap_samples : Nat
deriving Repr, DecidableEq

/-- Settings::total_length_samples (chunk_transcoder.hpp line 250):
length_samples() + 2 * overlap_samples(). -/
def Settings.total_length_samples (S : Settings) : Nat :=
  S.length_samples + 2 * S.overlap_samples

/-- Settings::offs_for_block_idx_samples (chunk_transcoder.hpp lines 210-217):
std::max<int64_t>((L + O) * idx - O, 0). -/
def Settings.offs_for_block_idx_samples (S : Settings) (idx : Nat) : Nat :=
  (max (((S.length_samples : Int) + (S.overlap_samples : Int)) * (idx : Int)
      - (S.overlap_samples : Int)) 0).toNat

/-- Settings::offs_end_for_block_idx_samples (chunk_transcoder.hpp lines
232-238): std::max<int64_t>((L + O) * (idx + 1), 0). -/
def Settings.offs_end_for_block_idx_samples (S : Settings) (idx : Nat) : Nat :=
  (max (((S.length_samples : Int) + (S.overlap_samples : Int))
      * ((idx : Int) + 1)) 0).toNat

/-- ChunkTranscoder::Impl::read_offs (chunk_transcoder.cpp lines 98-101):
std::max(0L, int64_t(offs) - int64_t(buf_ptr)). -/
def read_offs (offs buf_ptr : Nat) : Nat :=
  (max 0 ((offs : Int) - (buf_ptr : Int))).toNat

/-- ChunkTranscoder::Impl::idx (chunk_transcoder.cpp lines 173-190). -/
def Settings.idx (S : Settings) (offs buf_ptr : Nat) : Nat :=
  let p := read_offs offs buf_ptr
  let i := (p + S.overlap_samples) / (S.length_samples + S.overlap_samples)
  if S.offs_for_block_idx_samples i < p then i + 1 else i

/-- The assertion of Settings::rate (chunk_transcoder.hpp lines 93-94),
verbatim: rate == 80000 || rate == 12000 || rate == 16000 || rate == 24000
|| rate == 48000. -/
def rate_assertion (rate : Nat) : Bool :=
  rate == 80000 || rate == 12000 || rate == 16000 || rate == 24000 ||
  rate == 48000

/-- Mutable state of ChunkTranscoder::Impl (chunk_transcoder.cpp lines
35-78): current decoder offset, number of buffered samples, end flag. -/
structure TState where
  offs : Nat
  buf_ptr : Nat
  at_end : Bool
deriving Repr, DecidableEq

/-- Observable result of one produced chunk: the crossfade metadata handed
to the Encoder constructor, the rendered tag list, and the number of
samples passed to Encoder::encode (chunk_transcoder.cpp lines 147-158). -/
structure Chunk where
  cf_in : Nat
  cf_out : Nat
  n_fed : Nat
  tags : List (String × String)
deriving Repr, DecidableEq

/-- The skip loop of ChunkTranscoder::Impl::transcode (chunk_transcoder.cpp
lines 115-127): advance the decoder to the start offset of the next block,
discarding buffered data after every full read.  Returns
(completed?, offs, buf_ptr, remaining decoder responses).  A short read
(including an exhausted response list, which delivers 0 samples while the
loop requests at least one) terminates the loop with completed? = false;
the caller then sets at_end. -/
def skip_loop (S : Settings) (next_offs : Nat) :
    List Nat → Nat → Nat → Bool × Nat × Nat × List Nat
  | rs, offs, buf_ptr =>
    if offs < next_offs then
      match rs with
      | [] => (false, offs, buf_ptr, [])
      | r :: rest =>
        let n_read := min (next_offs - offs) S.total_length_samples
        let read := min r n_read
        if read < n_read then (false, offs + read, buf_ptr, rest)
        else skip_loop S next_offs rest (offs + read) 0
    else (true, offs, buf_ptr, rs)

/-- Second half of ChunkTranscoder::Impl::transcode (chunk_transcoder.cpp
lines 132-170): read the remaining data for the block ending at offs_end,
assemble the crossfade metadata, hand the buffer to the Encoder, retain
the crossfade_out samples.  next_idx_offs and offs_end are the block
bounds of the chosen index; offs1/bp1/rs1 are the decoder state after the
skip loop. -/
def transcode_read (S : Settings) (next_idx_offs offs_end offs1 bp1 : Nat)
    (rs1 : List Nat) : Bool × TState × List Nat × Option Chunk :=
  let crossfade_in := if next_idx_offs = 0 then 0 else S.overlap_samples
  let n_read := offs_end - offs1
  let r := rs1.headD 0
  let rs2 := rs1.tail
  let read := min r n_read
  let crossfade_out := if read < n_read then 0 else S.overlap_samples
  let at_end1 := decide (read < n_read)
  let offs2 := offs1 + read
  let chunk_size_total := bp1 + read
  if chunk_size_total = 0 then (false, ⟨offs2, bp1, at_end1⟩, rs2, none)
  else
    (true, ⟨offs2, crossfade_out, at_end1⟩, rs2,
     some { cf_in := crossfade_in, cf_out := crossfade_out,
            n_fed := chunk_size_total,
            tags := [("CF_IN", Nat.repr crossfade_in),
                     ("CF_OUT", Nat.repr crossfade_out)] })

/-- ChunkTranscoder::Impl::transcode (chunk_transcoder.cpp lines 103-171).
Returns (return value, new state, remaining decoder responses, the chunk
handed to the Encoder, if any).  The Encoder is constructed -- i.e. bytes
are written to the output stream -- exactly when a chunk is returned. -/
def transcode (S : Settings) (s : TState) (rs : List Nat) :
    Bool × TState × List Nat × Option Chunk :=
  if s.at_end then (false, s, rs, none)
  else
    let next_idx := S.idx s.offs s.buf_ptr
    let next_idx_offs := S.offs_for_block_idx_samples next_idx
    match skip_loop S next_idx_offs rs s.offs s.buf_ptr with
    | (false, offs1, bp1, rs1) => (false, ⟨offs1, bp1, true⟩, rs1, none)
    | (true, offs1, bp1, rs1) =>
      transcode_read S next_idx_offs
        (S.offs_end_for_block_idx_samples next_idx) offs1 bp1 rs1

/-- ChunkTranscoder::has_next (chunk_transcoder.cpp line 223): !at_end. -/
def has_next (s : TState) : Bool := !s.at_end

/-- Driver loop: call transcode up to n times, collecting the produced
chunks; stop at the first call returning false (as the external drivers
do, cf. has_next). -/
def run_transcode : Nat → Settings → TState → List Nat → List Chunk
  | 0, _, _, _ => []
  | n + 1, S, s, rs =>
    match transcode S s rs with
    | (true, s1, rs1, some c) => c :: run_transcode n S s1 rs1
    | (true, s1, rs1, none) => run_transcode n S s1 rs1
    | (false, _, _, _) => []

/-- Encoder::Impl::frame_size (encoder.cpp lines 350-353): frames are
fixed to 20 ms, (20 * rate) / 1000 samples. -/
def frame_size (rate : Nat) : Nat := 20 * rate / 1000

/-- granule_mul (encoder.cpp line 312): 48000 / rate, the factor scaling
native-rate granules to the 48 kHz Ogg time base. -/
def granule_mul (rate : Nat) : Nat := 48000 / rate

/-- Granule-relevant state of Encoder::Impl (encoder.cpp lines 256-308):
the first-frame flag, the native-rate granule counter (int64_t) and the
final_padding counter.  The constructor (lines 310-319) initializes
granule := granule_offset and final_padding := enc.pre_skip(). -/
structure EncSt where
  first : Bool
  granule : Int
  final_padding : Nat
deriving Repr, DecidableEq

/-- Granule accounting of one Encoder::Impl::encode_frame call
(encoder.cpp lines 389-478) with n_src input samples.  Returns the new
state and the granule values passed to OggOpusMuxer::write_frame, in
order:
* on the first frame ever (lines 402-428) the synthesized lead-in frame
  is encoded through a recursive call with n_src = frame_size, which
  advances the granule by one full frame and writes granule * granule_mul;
* the granule advances by n_src (line 432);
* a tail frame (n_src < frame_size, lines 437-465) additionally advances
  the granule by add = min(final_padding, frame_size - n_src) and
  subtracts add from final_padding (lines 457-459);
* the frame is written with granule * granule_mul (line 477). -/
def encode_frame_g (fs mul : Nat) (s : EncSt) (n_src : Nat) :
    EncSt × List Int :=
  let s1 : EncSt := if s.first then
      { first := false, granule := s.granule + (fs : Int),
        final_padding := s.final_padding }
    else s
  let lead : List Int := if s.first then [(s.granule + (fs : Int)) * mul]
    else []
  let add : Nat := if n_src < fs then min s1.final_padding (fs - n_src)
    else 0
  let g2 : Int := s1.granule + (n_src : Int) + (add : Int)
  ({ first := s1.first, granule := g2,
     final_padding := s1.final_padding - add },
   lead ++ [g2 * (mul : Int)])

/-- Threading of the encoder state over a sequence of encode_frame calls,
collecting all granule values written to the muxer. -/
def encode_frames_g (fs mul : Nat) : EncSt → List Nat → EncSt × List Int
  | s, [] => (s, [])
  | s, n :: rest =>
    let p1 := encode_frame_g fs mul s n
    let p2 := encode_frames_g fs mul p1.1 rest
    (p2.1, p1.2 ++ p2.2)

/-- The claim's description of the granule counter: initialized to
granule_offset, advanced per frame by its sample count plus the
min(final_padding, frame_size - n_src) tail correction (zero for a full
frame), each written value being the counter times granule_mul. -/
def claim_writes (fs mul : Nat) : Int → Nat → List Nat → List Int
  | _, _, [] => []
  | g, fp, n :: rest =>
    let add := min fp (fs - n)
    let g2 := g + (n : Int) + (add : Int)
    g2 * (mul : Int) :: claim_writes fs mul g2 (fp - add) rest

/-- The per-frame sample counts of an encoder run, with the synthesized
lead-in frame (one full frame) preceding the first input frame. -/
def lead_frames (fs : Nat) : List Nat → List Nat
  | [] => []
  | n :: rest => fs :: n :: rest

/-- Observable events of Encoder::Impl::encode(const float*, size_t)
(encoder.cpp lines 488-512): a copy into the staging buffer `buf`
(recording buf_ptr and the remaining input n_src at that moment, plus the
number of samples the std::copy on lines 499-500 transfers), or an
encode_frame call for a full frame (recording whether it encodes from the
staging buffer or directly from src, the last_in_seq flag passed, and the
remaining input n_src at the call). -/
inductive EncEv where
  | copy (buf_ptr n_src copied : Nat)
  | frame (fromBuf : Bool) (last_in_seq : Bool) (n_src : Nat)
deriving Repr, DecidableEq

/-- The while-loop of Encoder::Impl::encode(const float*, size_t)
(encoder.cpp lines 491-511), as an event trace.  One fuel unit per
iteration; fuel = n_src suffices because every iteration consumes
n_read = min(frame_size - buf_ptr, n_src) >= 1 samples whenever
buf_ptr < frame_size, which is the class invariant on entry.  The copy
event records that the code copies n_src (not n_read) samples:
std::copy(src, src + n_src * channels, buf + buf_ptr * channels). -/
def encode_float_evs (fs : Nat) : Nat → Nat → Nat → List EncEv
  | 0, _, _ => []
  | fuel + 1, n_src, buf_ptr =>
    if n_src = 0 then []
    else
      let n_read := min (fs - buf_ptr) n_src
      if n_read = fs then
        EncEv.frame false (decide (n_src < fs)) n_src
          :: encode_float_evs fs fuel (n_src - n_read) buf_ptr
      else
        EncEv.copy buf_ptr n_src n_src ::
          (if buf_ptr + n_read = fs then
            EncEv.frame true (decide (n_src < fs)) n_src
              :: encode_float_evs fs fuel (n_src - n_read) 0
          else encode_float_evs fs fuel (n_src - n_read) (buf_ptr + n_read))

/-- Event trace of one encode(src, n_src) call entered with the given
staging fill buf_ptr. -/
def encode_float (fs buf_ptr n_src : Nat) : List EncEv :=
  encode_float_evs fs n_src n_src buf_ptr

/-- LinearPredictiveCoder::order() (lpc.hpp line 47): 24. -/
def lpc_order : Nat := 24

/-- Autocorrelation (lpc.cpp lines 84-94) for float input
(Scale<float>::iss = 1): aut[j] = sum over i in [j, n) of
src[i] * src[i-j], accumulated in double, here exact.  The strided
single-channel view of the C++ buffer is the list. -/
def autocorr (src : List ℚ) (j : Nat) : ℚ :=
  ∑ i ∈ Finset.Ico j src.length, src.getD i 0 * src.getD (i - j) 0

/-- Lag windowing (lpc.cpp lines 97-103): aut[i] -= aut[i] * 0.008^2 * i^2
for i in [1, order]; aut[0] untouched (order = 24 <= 64 so the branch is
always taken; the float literal 0.008f is modelled as 8/1000). -/
def lag_window (aut : Nat → ℚ) (i : Nat) : ℚ :=
  if 1 ≤ i ∧ i ≤ lpc_order then
    aut i - aut i * ((8 / 1000) * (8 / 1000)) * (i : ℚ) * (i : ℚ)
  else aut i

/-- Noise-floor initialization (lpc.cpp line 108): error = aut[0] * (1 + 1e-7). -/
def lev_error0 (aut0 : ℚ) : ℚ := aut0 * (1 + 1 / 10000000)

/-- Noise-floor guard (lpc.cpp line 109): epsilon = 1e-6 * aut[0] + 1e-7. -/
def lev_epsilon (aut0 : ℚ) : ℚ := (1 / 1000000) * aut0 + 1 / 10000000

/-- State of the Levinson recursion: the working lpc array (entries beyond
the written prefix are the zero-initialized model values, never read by
the algorithm), the running error, and whether the goto-done early exit
has fired. -/
structure LevSt where
  lpc : Nat → ℚ
  err : ℚ
  stopped : Bool

/-- The in-place symmetric pair-update loop (lpc.cpp lines 132-138), m
iterations: for j = 0 .. m-1 { tmp = lpc[j]; lpc[j] += r * lpc[i-1-j];
lpc[i-1-j] += r * tmp }. -/
def pair_loop (r : ℚ) (i : Nat) (lpc : Nat → ℚ) : Nat → (Nat → ℚ)
  | 0 => lpc
  | m + 1 =>
    let prev := pair_loop r i lpc m
    let tmp := prev m
    let a := Function.update prev m (prev m + r * prev (i - 1 - m))
    Function.update a (i - 1 - m) (a (i - 1 - m) + r * tmp)

/-- The claimed reflection coefficient of iteration i:
r = (-aut[i+1] - sum_{j<i} lpc[j] * aut[i-j]) / error (lpc.cpp lines
112-128). -/
def lev_r (aut : Nat → ℚ) (st : LevSt) (i : Nat) : ℚ :=
  (-aut (i + 1) - ∑ j ∈ Finset.range i, st.lpc j * aut (i - j)) / st.err

/-- One Levinson iteration (lpc.cpp lines 111-144).  The early exit
(lines 114-119: fill lpc[i..order) with 0 and goto done) fires when
error < epsilon, before r is used; afterwards lpc[i] := r, the pair loop
runs for i/2 iterations, the middle element is updated when i is odd
(lines 139-141), and error *= 1 - r^2 (line 143). -/
def lev_step (aut : Nat → ℚ) (epsilon : ℚ) (st : LevSt) (i : Nat) : LevSt :=
  if st.stopped then st
  else if st.err < epsilon then
    { lpc := fun j => if i ≤ j ∧ j < lpc_order then 0 else st.lpc j,
      err := st.err, stopped := true }
  else
    let r := lev_r aut st i
    let lpc1 := Function.update st.lpc i r
    let lpc2 := pair_loop r i lpc1 (i / 2)
    let lpc3 := if i % 2 = 1 then
        Function.update lpc2 (i / 2) (lpc2 (i / 2) + lpc2 (i / 2) * r)
      else lpc2
    { lpc := lpc3, err := st.err * (1 - r * r), stopped := false }

/-- Recursion entry state (lpc.cpp lines 77, 108): lpc zero-initialized in
the model (the C++ array is uninitialized but never read ahead of its
writes), error = aut[0] * (1 + 1e-7). -/
def lev_start (aut : Nat → ℚ) : LevSt :=
  { lpc := fun _ => 0, err := lev_error0 (aut 0), stopped := false }

/-- State after the first i Levinson iterations. -/
def lev_state_at (aut : Nat → ℚ) (i : Nat) : LevSt :=
  (List.range i).foldl (lev_step aut (lev_epsilon (aut 0))) (lev_start aut)

/-- The full recursion (lpc.cpp loop for i = 0 .. order-1). -/
def lev_run (aut : Nat → ℚ) : LevSt := lev_state_at aut lpc_order

/-- The damping accumulator (lpc.cpp lines 148-156): damp starts at
g = 0.999 and is multiplied by g after each coefficient, so coefficient j
is scaled by damp_at j. -/
def damp_at : Nat → ℚ
  | 0 => 999 / 1000
  | j + 1 => damp_at j * (999 / 1000)

/-- lpc_coefficients_from_data for float input (lpc.cpp lines 72-157):
autocorrelation, lag windowing, Levinson recursion, damping. -/
def lpc_coefficients_from_data (src : List ℚ) : Nat → ℚ :=
  fun j => (lev_run (lag_window (autocorr src))).lpc j * damp_at j

/-! ## Theorems -/

/-- Nat normal form of offs_for_block_idx_samples (truncated subtraction). -/
theorem offs_for_eq (S : Settings) (i : Nat) :
    S.offs_for_block_idx_samples i
      = (S.length_samples + S.overlap_samples) * i - S.overlap_samples := by
  unfold Settings.offs_for_block_idx_samples
  have hc : (((S.length_samples + S.overlap_samples) * i : Nat) : Int)
      = ((S.length_samples : Int) + S.overlap_samples) * (i : Int) := by
    push_cast; ring
  omega

/-- Nat normal form of offs_end_for_block_idx_samples. -/
theorem offs_end_eq (S : Settings) (i : Nat) :
    S.offs_end_for_block_idx_samples i
      = (S.length_samples + S.overlap_samples) * (i + 1) := by
  unfold Settings.offs_end_for_block_idx_samples
  have hc : (((S.length_samples + S.overlap_samples) * (i + 1) : Nat) : Int)
      = ((S.length_samples : Int) + S.overlap_samples) * ((i : Int) + 1) := by
    push_cast; ring
  omega

/-- Nat normal form of read_offs. -/
theorem read_offs_eq (offs bp : Nat) : read_offs offs bp = offs - bp := by
  unfold read_offs; omega

/-- The block start offset never exceeds the block end offset; strict when
L + O >= 1. -/
theorem start_lt_end (S : Settings) (i : Nat)
    (h : 1 ≤ S.length_samples + S.overlap_samples) :
    S.offs_for_block_idx_samples i < S.offs_end_for_block_idx_samples i := by
  rw [offs_for_eq, offs_end_eq]
  have hB : (S.length_samples + S.overlap_samples) * (i + 1)
      = (S.length_samples + S.overlap_samples) * i
        + (S.length_samples + S.overlap_samples) := by ring
  generalize (S.length_samples + S.overlap_samples) * i = A at hB ⊢
  omega

/-- The planner never selects a block whose start offset lies before the
current read position: read_offs <= offs_for_block_idx_samples(idx()). -/
theorem read_offs_le_start (S : Settings) (offs bp : Nat)
    (h : 1 ≤ S.length_samples + S.overlap_samples) :
    read_offs offs bp ≤ S.offs_for_block_idx_samples (S.idx offs bp) := by
  have hbody : S.idx offs bp =
      (if S.offs_for_block_idx_samples
            ((read_offs offs bp + S.overlap_samples)
              / (S.length_samples + S.overlap_samples))
          < read_offs offs bp
       then (read_offs offs bp + S.overlap_samples)
              / (S.length_samples + S.overlap_samples) + 1
       else (read_offs offs bp + S.overlap_samples)
              / (S.length_samples + S.overlap_samples)) := rfl
  rw [hbody]
  by_cases hc : S.offs_for_block_idx_samples
      ((read_offs offs bp + S.overlap_samples)
        / (S.length_samples + S.overlap_samples)) < read_offs offs bp
  · simp only [hc, if_true]
    rw [offs_for_eq]
    have hdm := Nat.div_add_mod (read_offs offs bp + S.overlap_samples)
      (S.length_samples + S.overlap_samples)
    have hmlt : (read_offs offs bp + S.overlap_samples)
        % (S.length_samples + S.overlap_samples)
        < S.length_samples + S.overlap_samples := Nat.mod_lt _ h
    have hB : (S.length_samples + S.overlap_samples)
        * ((read_offs offs bp + S.overlap_samples)
            / (S.length_samples + S.overlap_samples) + 1)
        = (S.length_samples + S.overlap_samples)
          * ((read_offs offs bp + S.overlap_samples)
              / (S.length_samples + S.overlap_samples))
          + (S.length_samples + S.overlap_samples) := by ring
    generalize (S.length_samples + S.overlap_samples)
        * ((read_offs offs bp + S.overlap_samples)
            / (S.length_samples + S.overlap_samples)) = A at hdm hB
    generalize (S.length_samples + S.overlap_samples)
        * ((read_offs offs bp + S.overlap_samples)
            / (S.length_samples + S.overlap_samples) + 1) = B at hB ⊢
    omega
  · simp only [hc, if_false]
    exact Nat.le_of_not_lt hc

/-- Characterization of a completed skip loop: either it never ran (the
decoder was already at or past the block start) or it advanced the decoder
exactly to the block start and discarded the buffered samples. -/
theorem skip_loop_spec (S : Settings) (next : Nat) :
    ∀ (rs : List Nat) (offs bp : Nat),
      (skip_loop S next rs offs bp).1 = true →
      ((skip_loop S next rs offs bp).2.1 = offs
        ∧ (skip_loop S next rs offs bp).2.2.1 = bp ∧ next ≤ offs)
      ∨ ((skip_loop S next rs offs bp).2.1 = next
        ∧ (skip_loop S next rs offs bp).2.2.1 = 0) := by
  intro rs
  induction rs with
  | nil =>
    intro offs bp hok
    rw [skip_loop] at hok ⊢
    by_cases hlt : offs < next
    · simp [hlt] at hok
    · simp [hlt]; omega
  | cons r rest ih =>
    intro offs bp hok
    rw [skip_loop] at hok ⊢
    by_cases hlt : offs < next
    · simp only [hlt, if_true] at hok ⊢
      set n_read := min (next - offs) S.total_length_samples with hn
      set read := min r n_read with hr
      by_cases hsh : read < n_read
      · simp [hsh] at hok
      · simp only [hsh, if_false] at hok ⊢
        rcases ih (offs + read) 0 hok with ⟨h1, h2, h3⟩ | ⟨h1, h2⟩
        · right
          refine ⟨?_, h2⟩
          rw [h1]
          omega
        · right; exact ⟨h1, h2⟩
    · simp [hlt]
      omega

/-- The skip loop is a no-op when the decoder is already at or past the
block start. -/
theorem skip_loop_no_entry (S : Settings) (next offs bp : Nat)
    (rs : List Nat) (h : ¬ offs < next) :
    skip_loop S next rs offs bp = (true, offs, bp, rs) := by
  rw [skip_loop.eq_def]
  cases rs <;> simp [h]

/-- transcode at an ended stream: immediate false, state, decoder responses
and output untouched. -/
theorem transcode_at_end (S : Settings) (s : TState) (rs : List Nat)
    (h : s.at_end = true) : transcode S s rs = (false, s, rs, none) := by
  rw [transcode]; simp [h]

/-- transcode when the skip loop hits a short read: at_end is set and no
chunk is produced. -/
theorem transcode_skip_short (S : Settings) (s : TState) (rs rs1 : List Nat)
    (offs1 bp1 : Nat) (h : s.at_end = false)
    (hsk : skip_loop S
        (S.offs_for_block_idx_samples (S.idx s.offs s.buf_ptr))
        rs s.offs s.buf_ptr = (false, offs1, bp1, rs1)) :
    transcode S s rs = (false, ⟨offs1, bp1, true⟩, rs1, none) := by
  rw [transcode]; simp [h, hsk]

/-- transcode when the skip loop completes: control passes to the read
phase with the block bounds of the chosen index. -/
theorem transcode_skip_ok (S : Settings) (s : TState) (rs rs1 : List Nat)
    (offs1 bp1 : Nat) (h : s.at_end = false)
    (hsk : skip_loop S
        (S.offs_for_block_idx_samples (S.idx s.offs s.buf_ptr))
        rs s.offs s.buf_ptr = (true, offs1, bp1, rs1)) :
    transcode S s rs = transcode_read S
      (S.offs_for_block_idx_samples (S.idx s.offs s.buf_ptr))
      (S.offs_end_for_block_idx_samples (S.idx s.offs s.buf_ptr))
      offs1 bp1 rs1 := by
  rw [transcode]; simp [h, hsk]

/-- Explicit form of the read phase (zeta-reduced lets). -/
theorem transcode_read_eq (S : Settings) (next oend offs1 bp1 : Nat)
    (rs1 : List Nat) :
    transcode_read S next oend offs1 bp1 rs1 =
      (if bp1 + min (rs1.headD 0) (oend - offs1) = 0 then
        (false, ⟨offs1 + min (rs1.headD 0) (oend - offs1), bp1,
                 decide (min (rs1.headD 0) (oend - offs1) < oend - offs1)⟩,
         rs1.tail, none)
      else
        (true, ⟨offs1 + min (rs1.headD 0) (oend - offs1),
                if min (rs1.headD 0) (oend - offs1) < oend - offs1 then 0
                  else S.overlap_samples,
                decide (min (rs1.headD 0) (oend - offs1) < oend - offs1)⟩,
         rs1.tail,
         some { cf_in := if next = 0 then 0 else S.overlap_samples,
                cf_out := if min (rs1.headD 0) (oend - offs1) < oend - offs1
                  then 0 else S.overlap_samples,
                n_fed := bp1 + min (rs1.headD 0) (oend - offs1),
                tags := [("CF_IN", Nat.repr (if next = 0 then 0
                            else S.overlap_samples)),
                         ("CF_OUT", Nat.repr
                            (if min (rs1.headD 0) (oend - offs1) < oend - offs1
                              then 0 else S.overlap_samples))] })) := rfl

/-- When the read position is at 0, the chosen block starts at offset 0. -/
theorem start_of_idx_zero (S : Settings) (offs bp : Nat)
    (hp : read_offs offs bp = 0) :
    S.offs_for_block_idx_samples (S.idx offs bp) = 0 := by
  have hbody : S.idx offs bp =
      (if S.offs_for_block_idx_samples
            ((read_offs offs bp + S.overlap_samples)
              / (S.length_samples + S.overlap_samples))
          < read_offs offs bp
       then (read_offs offs bp + S.overlap_samples)
              / (S.length_samples + S.overlap_samples) + 1
       else (read_offs offs bp + S.overlap_samples)
              / (S.length_samples + S.overlap_samples)) := rfl
  have hX : (S.length_samples + S.overlap_samples)
      * ((read_offs offs bp + S.overlap_samples)
          / (S.length_samples + S.overlap_samples)) ≤
        read_offs offs bp + S.overlap_samples := by
    rw [mul_comm]; exact Nat.div_mul_le_self _ _
  have hstart : S.offs_for_block_idx_samples
      ((read_offs offs bp + S.overlap_samples)
        / (S.length_samples + S.overlap_samples)) = 0 := by
    rw [offs_for_eq]; omega
  rw [hbody]
  simp only [hp] at hstart ⊢
  simp only [Nat.zero_add] at hstart
  simp [hstart]

/-- C1: chunk window geometry and the planner's idx().  The code's
offs_for_block_idx_samples(i) equals max(0, i*(L+O) - O), its
offs_end_for_block_idx_samples(i) equals (i+1)*(L+O), and idx() returns
i = (p + O) / (L + O) computed from p = max(0, offs - buf_ptr),
incremented by exactly one when p > offs_for_block_idx_samples(i). -/
theorem C1_chunk_geometry (S : Settings) (i offs buf_ptr : Nat) :
    (S.offs_for_block_idx_samples i : Int)
        = max 0 ((i : Int) * ((S.length_samples : Int)
            + (S.overlap_samples : Int)) - (S.overlap_samples : Int))
  ∧ (S.offs_end_for_block_idx_samples i : Int)
        = ((i : Int) + 1) * ((S.length_samples : Int)
            + (S.overlap_samples : Int))
  ∧ S.idx offs buf_ptr =
      (let p := (max 0 ((offs : Int) - (buf_ptr : Int))).toNat
       let i0 := (p + S.overlap_samples)
           / (S.length_samples + S.overlap_samples)
       if S.offs_for_block_idx_samples i0 < p then i0 + 1 else i0) := by
  refine ⟨?_, ?_, rfl⟩
  · unfold Settings.offs_for_block_idx_samples
    rw [mul_comm]
    generalize ((i : Int) * ((S.length_samples : Int)
        + (S.overlap_samples : Int))) = A
    omega
  · unfold Settings.offs_end_for_block_idx_samples
    rw [mul_comm]
    have h0 : 0 ≤ ((i : Int) + 1) * ((S.length_samples : Int)
        + (S.overlap_samples : Int)) := by positivity
    generalize hA : ((i : Int) + 1) * ((S.length_samples : Int)
        + (S.overlap_samples : Int)) = A at h0 ⊢
    omega

/-- The damping accumulator at position j is 0.999^(j+1). -/
theorem damp_at_eq (j : Nat) : damp_at j = (999 / 1000) ^ (j + 1) := by
  induction j with
  | zero => simp [damp_at]
  | succ j ih =>
    rw [damp_at, ih]
    ring

/-- Peeling one Levinson iteration off the state fold. -/
theorem lev_state_at_succ (aut : Nat → ℚ) (i : Nat) :
    lev_state_at aut (i + 1)
      = lev_step aut (lev_epsilon (aut 0)) (lev_state_at aut i) i := by
  unfold lev_state_at
  rw [List.range_succ, List.foldl_append]
  rfl

/-- A stopped state is a fixed point of the Levinson iteration. -/
theorem lev_step_stopped (aut : Nat → ℚ) (eps : ℚ) (st : LevSt) (i : Nat)
    (h : st.stopped = true) : lev_step aut eps st i = st := by
  unfold lev_step
  simp [h]

/-- Once stopped, all later states coincide. -/
theorem lev_state_at_fix (aut : Nat → ℚ) (m : Nat)
    (h : (lev_state_at aut m).stopped = true) :
    ∀ k, lev_state_at aut (m + k) = lev_state_at aut m := by
  intro k
  induction k with
  | zero => rfl
  | succ k ih =>
    have : m + (k + 1) = (m + k) + 1 := by omega
    rw [this, lev_state_at_succ, ih, lev_step_stopped]
    exact h

/-- Functional characterization of the in-place pair loop: after m
iterations (m <= i/2), index k holds lpc[k] + r * lpc[i-1-k] when k lies
in one of the first m pairs, and is untouched otherwise. -/
theorem pair_loop_spec (r : ℚ) (i : Nat) (lpc : Nat → ℚ) :
    ∀ m, m ≤ i / 2 → ∀ k,
      pair_loop r i lpc m k
        = if k < m ∨ (k ≤ i - 1 ∧ i - 1 - k < m) then
            lpc k + r * lpc (i - 1 - k)
          else lpc k := by
  intro m
  induction m with
  | zero =>
    intro _ k
    simp [pair_loop]
  | succ m ih =>
    intro hm k
    have hm2 : m ≤ i / 2 := by omega
    have hih := ih hm2
    have h2m : 2 * m + 1 < i := by omega
    have hmu : pair_loop r i lpc m m = lpc m := by
      rw [hih m]
      have hc : ¬ (m < m ∨ (m ≤ i - 1 ∧ i - 1 - m < m)) := by omega
      rw [if_neg hc]
    have himu : pair_loop r i lpc m (i - 1 - m) = lpc (i - 1 - m) := by
      rw [hih (i - 1 - m)]
      have hc : ¬ (i - 1 - m < m
          ∨ (i - 1 - m ≤ i - 1 ∧ i - 1 - (i - 1 - m) < m)) := by omega
      rw [if_neg hc]
    have hne : ¬ (i - 1 - m = m) := by omega
    simp only [pair_loop, Function.update_apply]
    by_cases hk1 : k = i - 1 - m
    · subst hk1
      rw [if_pos rfl, if_neg hne, himu, hmu]
      have hcond : i - 1 - m < m + 1
          ∨ (i - 1 - m ≤ i - 1 ∧ i - 1 - (i - 1 - m) < m + 1) := by omega
      rw [if_pos hcond]
      have hmm : i - 1 - (i - 1 - m) = m := by omega
      rw [hmm]
    · by_cases hk2 : k = m
      · rw [if_neg hk1, if_pos hk2, hmu, himu, hk2]
        have hcond : m < m + 1 ∨ (m ≤ i - 1 ∧ i - 1 - m < m + 1) := by
          omega
        rw [if_pos hcond]
      · rw [if_neg hk1, if_neg hk2, hih k]
        by_cases hc : k < m ∨ (k ≤ i - 1 ∧ i - 1 - k < m)
        · rw [if_pos hc]
          have hc2 : k < m + 1 ∨ (k ≤ i - 1 ∧ i - 1 - k < m + 1) := by
            omega
          rw [if_pos hc2]
        · rw [if_neg hc]
          have hc2 : ¬ (k < m + 1 ∨ (k ≤ i - 1 ∧ i - 1 - k < m + 1)) := by
            omega
          rw [if_neg hc2]

/-- The early-exit iteration: entered unstopped with error < epsilon, it
zero-fills lpc[i..order) and stops. -/
theorem lev_step_exit (aut : Nat → ℚ) (eps : ℚ) (st : LevSt) (i : Nat)
    (h1 : st.stopped = false) (h2 : st.err < eps) :
    lev_step aut eps st i
      = { lpc := fun j => if i ≤ j ∧ j < lpc_order then 0 else st.lpc j,
          err := st.err, stopped := true } := by
  unfold lev_step
  rw [if_neg (by simp [h1]), if_pos h2]

/-- The regular iteration: entered unstopped with error >= epsilon, it
stores the reflection coefficient at i, applies the symmetric pair update
to the first i coefficients, and multiplies the error by 1 - r^2. -/
theorem lev_step_go (aut : Nat → ℚ) (eps : ℚ) (st : LevSt) (i : Nat)
    (h1 : st.stopped = false) (h2 : ¬ st.err < eps) :
    (lev_step aut eps st i).err
        = st.err * (1 - lev_r aut st i * lev_r aut st i)
  ∧ (lev_step aut eps st i).stopped = false
  ∧ (lev_step aut eps st i).lpc i = lev_r aut st i
  ∧ ∀ k, k < i → (lev_step aut eps st i).lpc k
      = st.lpc k + lev_r aut st i * st.lpc (i - 1 - k) := by
  unfold lev_step
  rw [if_neg (by simp [h1]), if_neg h2]
  refine ⟨rfl, rfl, ?_, ?_⟩
  · -- coefficient i is the reflection coefficient
    dsimp only
    have hpair := pair_loop_spec (lev_r aut st i) i
      (Function.update st.lpc i (lev_r aut st i)) (i / 2) (le_refl _) i
    have hc : ¬ (i < i / 2 ∨ (i ≤ i - 1 ∧ i - 1 - i < i / 2)) := by omega
    rw [if_neg hc] at hpair
    by_cases hodd : i % 2 = 1
    · rw [if_pos hodd, Function.update_apply]
      have hne : ¬ (i = i / 2) := by omega
      rw [if_neg hne, hpair, Function.update_same]
    · rw [if_neg hodd, hpair, Function.update_same]
  · -- coefficients below i get the symmetric pair update
    intro k hk
    dsimp only
    have hk1 : ¬ (k = i) := by omega
    have hk2 : ¬ (i - 1 - k = i) := by omega
    by_cases hmid : i % 2 = 1 ∧ k = i / 2
    · -- the odd middle element: i - 1 - k = k
      obtain ⟨hodd, hkm⟩ := hmid
      have hkk : i - 1 - k = k := by omega
      rw [if_pos hodd, hkm, Function.update_same]
      have hpair := pair_loop_spec (lev_r aut st i) i
        (Function.update st.lpc i (lev_r aut st i)) (i / 2) (le_refl _)
        (i / 2)
      have hc : ¬ (i / 2 < i / 2
          ∨ (i / 2 ≤ i - 1 ∧ i - 1 - i / 2 < i / 2)) := by omega
      rw [if_neg hc] at hpair
      rw [hpair, Function.update_apply]
      have hne : ¬ (i / 2 = i) := by omega
      rw [if_neg hne, ← hkm, hkk]
      ring
    · -- a proper pair element
      have hgoal : pair_loop (lev_r aut st i) i
          (Function.update st.lpc i (lev_r aut st i)) (i / 2) k
          = st.lpc k + lev_r aut st i * st.lpc (i - 1 - k) := by
        have hpair := pair_loop_spec (lev_r aut st i) i
          (Function.update st.lpc i (lev_r aut st i)) (i / 2) (le_refl _) k
        have hc : k < i / 2 ∨ (k ≤ i - 1 ∧ i - 1 - k < i / 2) := by omega
        rw [if_pos hc] at hpair
        rw [hpair, Function.update_apply, if_neg hk1,
          Function.update_apply, if_neg hk2]
      by_cases hodd : i % 2 = 1
      · rw [if_pos hodd, Function.update_apply]
        have hne : ¬ (k = i / 2) := by
          intro hc; exact hmid ⟨hodd, hc⟩
        rw [if_neg hne, hgoal]
      · rw [if_neg hodd, hgoal]

/-- C8: structure of the order-24 Levinson recursion in
lpc_coefficients_from_data.  (i) Every stored coefficient is the raw
recursion coefficient times 0.999^(j+1) (the damping pass); (ii) the
error is initialized to aut[0]*(1+1e-7) and epsilon to 1e-6*aut[0]+1e-7;
(iii) if an iteration i is entered with error < epsilon, coefficients
i..order-1 of the final result are 0 and the recursion stops; (iv)
otherwise iteration i stores the reflection coefficient
r = (-aut[i+1] - sum_{j<i} lpc[j]*aut[i-j]) / error at position i,
applies the symmetric in-place pair update to positions below i, and
multiplies the error by (1 - r^2). -/
theorem C8_levinson_structure (src : List ℚ) :
    (∀ j, lpc_coefficients_from_data src j
        = (lev_run (lag_window (autocorr src))).lpc j
          * (999 / 1000) ^ (j + 1))
  ∧ (lev_start (lag_window (autocorr src))).err
      = lag_window (autocorr src) 0 * (1 + 1 / 10000000)
  ∧ lev_epsilon (lag_window (autocorr src) 0)
      = (1 / 1000000) * lag_window (autocorr src) 0 + 1 / 10000000
  ∧ (∀ i, i < lpc_order →
        (lev_state_at (lag_window (autocorr src)) i).stopped = false →
        (lev_state_at (lag_window (autocorr src)) i).err
            < lev_epsilon (lag_window (autocorr src) 0) →
        ∀ j, i ≤ j → j < lpc_order →
          (lev_run (lag_window (autocorr src))).lpc j = 0)
  ∧ (∀ i, i < lpc_order →
        (lev_state_at (lag_window (autocorr src)) i).stopped = false →
        ¬ (lev_state_at (lag_window (autocorr src)) i).err
            < lev_epsilon (lag_window (autocorr src) 0) →
        (lev_state_at (lag_window (autocorr src)) (i + 1)).err
            = (lev_state_at (lag_window (autocorr src)) i).err
              * (1 - lev_r (lag_window (autocorr src))
                      (lev_state_at (lag_window (autocorr src)) i) i
                  * lev_r (lag_window (autocorr src))
                      (lev_state_at (lag_window (autocorr src)) i) i)
        ∧ (lev_state_at (lag_window (autocorr src)) (i + 1)).lpc i
            = lev_r (lag_window (autocorr src))
                (lev_state_at (lag_window (autocorr src)) i) i
        ∧ ∀ k, k < i →
            (lev_state_at (lag_window (autocorr src)) (i + 1)).lpc k
              = (lev_state_at (lag_window (autocorr src)) i).lpc k
                + lev_r (lag_window (autocorr src))
                    (lev_state_at (lag_window (autocorr src)) i) i
                  * (lev_state_at (lag_window (autocorr src)) i).lpc
                      (i - 1 - k)) := by
  refine ⟨?_, rfl, rfl, ?_, ?_⟩
  · intro j
    unfold lpc_coefficients_from_data
    rw [damp_at_eq]
  · -- early exit zero-fill
    intro i hi h1 h2 j hij hj
    have hsucc : lev_state_at (lag_window (autocorr src)) (i + 1)
        = { lpc := fun j => if i ≤ j ∧ j < lpc_order then 0
              else (lev_state_at (lag_window (autocorr src)) i).lpc j,
            err := (lev_state_at (lag_window (autocorr src)) i).err,
            stopped := true } := by
      rw [lev_state_at_succ]
      exact lev_step_exit _ _ _ i h1 h2
    have hstop : (lev_state_at (lag_window (autocorr src)) (i + 1)).stopped
        = true := by rw [hsucc]
    have hord : lpc_order = (i + 1) + (lpc_order - (i + 1)) := by omega
    have hrun : lev_run (lag_window (autocorr src))
        = lev_state_at (lag_window (autocorr src)) (i + 1) := by
      unfold lev_run
      rw [hord]
      exact lev_state_at_fix _ _ hstop _
    rw [hrun, hsucc]
    simp only
    rw [if_pos ⟨hij, hj⟩]
  · -- regular iteration
    intro i hi h1 h2
    have hgo := lev_step_go (lag_window (autocorr src))
      (lev_epsilon (lag_window (autocorr src) 0))
      (lev_state_at (lag_window (autocorr src)) i) i h1 h2
    rw [lev_state_at_succ]
    exact ⟨hgo.1, hgo.2.2.1, hgo.2.2.2⟩

/-- Witness for C8 on the all-zero 8-sample buffer: the autocorrelation is
0, the error 0 is below epsilon = 1e-7 at iteration 0, so every recursion
coefficient is 0, and the stored coefficient 5 equals the recursion
coefficient times 0.999^6. -/
theorem C8_levinson_structure_witness :
    lpc_coefficients_from_data (List.replicate 8 0) 5
        = (lev_run (lag_window (autocorr (List.replicate 8 0)))).lpc 5
          * (999 / 1000) ^ 6
  ∧ (lev_run (lag_window (autocorr (List.replicate 8 0)))).lpc 5 = 0 := by
  have h := C8_levinson_structure (List.replicate 8 0)
  refine ⟨h.1 5, ?_⟩
  refine h.2.2.2.1 0 (by norm_num [lpc_order]) rfl ?_ 5 (by omega)
    (by norm_num [lpc_order])
  show (lev_start (lag_window (autocorr (List.replicate 8 0)))).err
      < lev_epsilon (lag_window (autocorr (List.replicate 8 0)) 0)
  have haut : lag_window (autocorr (List.replicate 8 0)) 0 = 0 := by
    unfold lag_window autocorr
    norm_num
  rw [lev_start, haut, lev_error0, lev_epsilon]
  norm_num

/-- C9: if the decoder delivers 0 samples on the first read (empty input),
the first call to transcode returns false, no chunk is produced (the
Encoder is never constructed, so no bytes reach the output stream), the
end flag is set, and has_next() is false afterwards. -/
theorem C9_empty_input (S : Settings) (rs : List Nat)
    (h : 1 ≤ S.length_samples + S.overlap_samples)
    (hfirst : rs.headD 0 = 0) :
    transcode S ⟨0, 0, false⟩ rs = (false, ⟨0, 0, true⟩, rs.tail, none)
  ∧ has_next (⟨0, 0, true⟩ : TState) = false := by
  refine ⟨?_, rfl⟩
  have hp : read_offs 0 0 = 0 := by rw [read_offs_eq]
  have hstart : S.offs_for_block_idx_samples (S.idx 0 0) = 0 :=
    start_of_idx_zero S 0 0 hp
  have hend : 1 ≤ S.offs_end_for_block_idx_samples (S.idx 0 0) := by
    have := start_lt_end S (S.idx 0 0) h
    omega
  have hsk : skip_loop S (S.offs_for_block_idx_samples (S.idx 0 0)) rs 0 0
      = (true, 0, 0, rs) := by
    apply skip_loop_no_entry
    omega
  rw [transcode_skip_ok S ⟨0, 0, false⟩ rs rs 0 0 rfl hsk,
    transcode_read_eq, hstart, hfirst]
  simp only [Nat.zero_add, Nat.sub_zero, Nat.zero_min, Nat.add_zero]
  have hlt : 0 < S.offs_end_for_block_idx_samples (S.idx 0 0) := hend
  simp [hlt]

/-- C10: end-of-stream is sticky.  Whenever transcode returns false the
at_end flag is set in the post-state (so has_next() is false), and once
at_end holds, transcode returns false immediately, consuming no decoder
responses and producing no chunk. -/
theorem C10_sticky_end (S : Settings) (s : TState) (rs : List Nat)
    (h : 1 ≤ S.length_samples + S.overlap_samples) :
    ((transcode S s rs).1 = false →
        (transcode S s rs).2.1.at_end = true
      ∧ has_next (transcode S s rs).2.1 = false)
  ∧ (s.at_end = true → transcode S s rs = (false, s, rs, none)) := by
  have hnext : ∀ t : TState, t.at_end = true → has_next t = false := by
    intro t ht; simp [has_next, ht]
  cases hend : s.at_end with
  | true =>
    rw [transcode_at_end S s rs hend]
    exact ⟨fun _ => ⟨hend, hnext s hend⟩, fun _ => rfl⟩
  | false =>
    refine ⟨?_, by intro hc; exact absurd hc (by simp [hend])⟩
    intro hfalse
    rcases hsk : skip_loop S
        (S.offs_for_block_idx_samples (S.idx s.offs s.buf_ptr))
        rs s.offs s.buf_ptr with ⟨ok, offs1, bp1, rs1⟩
    cases ok with
    | false =>
      rw [transcode_skip_short S s rs rs1 offs1 bp1 hend hsk] at hfalse ⊢
      exact ⟨rfl, rfl⟩
    | true =>
      rw [transcode_skip_ok S s rs rs1 offs1 bp1 hend hsk,
        transcode_read_eq] at hfalse ⊢
      by_cases hz : bp1 + min (rs1.headD 0)
          (S.offs_end_for_block_idx_samples (S.idx s.offs s.buf_ptr)
            - offs1) = 0
      · -- the return-false branch: the main read must have come up short
        have hread0 : min (rs1.headD 0)
            (S.offs_end_for_block_idx_samples (S.idx s.offs s.buf_ptr)
              - offs1) = 0 := by omega
        have hbp0 : bp1 = 0 := by omega
        -- after the skip loop the decoder sits exactly at the block start
        have hoffs1 : offs1 = S.offs_for_block_idx_samples
            (S.idx s.offs s.buf_ptr) := by
          rcases skip_loop_spec S
              (S.offs_for_block_idx_samples (S.idx s.offs s.buf_ptr))
              rs s.offs s.buf_ptr (by rw [hsk]) with
            ⟨h1, h2, h3⟩ | ⟨h1, h2⟩
          · rw [hsk] at h1 h2
            simp only at h1 h2
            have hple := read_offs_le_start S s.offs s.buf_ptr h
            rw [read_offs_eq] at hple
            omega
          · rw [hsk] at h1
            simpa using h1
        have hlt : 0 < S.offs_end_for_block_idx_samples
            (S.idx s.offs s.buf_ptr) - offs1 := by
          have := start_lt_end S (S.idx s.offs s.buf_ptr) h
          omega
        simp only [hread0, hbp0]
        simp [has_next, hlt]
      · rw [if_neg hz] at hfalse
        exact absurd hfalse (by simp)

/-- C2: the crossfade tags of every successfully produced chunk.  CF_IN is
O when the chunk's start offset is positive and 0 when it is 0; CF_OUT is
O unless the decoder delivered fewer samples than requested while filling
the chunk (equivalently, the end flag is set in the post-state), in which
case it is 0; both are rendered as decimal strings. -/
theorem C2_crossfade_tags (S : Settings) (s s' : TState)
    (rs rs' : List Nat) (c : Chunk)
    (h : transcode S s rs = (true, s', rs', some c)) :
    c.cf_in = (if 0 < S.offs_for_block_idx_samples (S.idx s.offs s.buf_ptr)
        then S.overlap_samples else 0)
  ∧ c.cf_out = (if s'.at_end then 0 else S.overlap_samples)
  ∧ c.tags = [("CF_IN", Nat.repr c.cf_in), ("CF_OUT", Nat.repr c.cf_out)] := by
  cases hend : s.at_end with
  | true => rw [transcode_at_end S s rs hend] at h; cases h
  | false =>
    rcases hsk : skip_loop S
        (S.offs_for_block_idx_samples (S.idx s.offs s.buf_ptr))
        rs s.offs s.buf_ptr with ⟨ok, offs1, bp1, rs1⟩
    cases ok with
    | false =>
      rw [transcode_skip_short S s rs rs1 offs1 bp1 hend hsk] at h
      cases h
    | true =>
      rw [transcode_skip_ok S s rs rs1 offs1 bp1 hend hsk,
        transcode_read_eq] at h
      by_cases hz : bp1 + min (rs1.headD 0)
          (S.offs_end_for_block_idx_samples (S.idx s.offs s.buf_ptr)
            - offs1) = 0
      · simp only [hz, if_true] at h; cases h
      · simp only [hz, if_false, Prod.mk.injEq, Option.some.injEq] at h
        obtain ⟨-, hs', -, hc⟩ := h
        subst hc
        constructor
        · by_cases h0 : S.offs_for_block_idx_samples
              (S.idx s.offs s.buf_ptr) = 0
          · simp [h0]
          · simp [h0, Nat.pos_of_ne_zero h0]
        constructor
        · rw [← hs']
          by_cases hsh : min (rs1.headD 0)
              (S.offs_end_for_block_idx_samples (S.idx s.offs s.buf_ptr)
                - offs1)
              < S.offs_end_for_block_idx_samples (S.idx s.offs s.buf_ptr)
                - offs1
          · simp [hsh]
          · simp [hsh]
        · rfl

/-- Unfolded form of idx(). -/
theorem idx_def (S : Settings) (offs bp : Nat) :
    S.idx offs bp =
      if S.offs_for_block_idx_samples
            ((read_offs offs bp + S.overlap_samples)
              / (S.length_samples + S.overlap_samples))
          < read_offs offs bp
      then (read_offs offs bp + S.overlap_samples)
            / (S.length_samples + S.overlap_samples) + 1
      else (read_offs offs bp + S.overlap_samples)
            / (S.length_samples + S.overlap_samples) := rfl

/-- Witness for C9 at concrete settings L = 4, O = 1: an immediately empty
decoder yields a failing first transcode call, no chunk, and a false
has_next(). -/
theorem C9_empty_input_witness :
    transcode ⟨4, 1⟩ ⟨0, 0, false⟩ [0] = (false, ⟨0, 0, true⟩, [], none)
  ∧ has_next (⟨0, 0, true⟩ : TState) = false :=
  C9_empty_input ⟨4, 1⟩ [0] (by decide) (by rfl)

/-- Witness for C10 at concrete settings L = 4, O = 1 and an ended state. -/
theorem C10_sticky_end_witness :
    ((transcode ⟨4, 1⟩ ⟨0, 0, true⟩ [3]).1 = false →
        (transcode ⟨4, 1⟩ ⟨0, 0, true⟩ [3]).2.1.at_end = true
      ∧ has_next (transcode ⟨4, 1⟩ ⟨0, 0, true⟩ [3]).2.1 = false)
  ∧ ((⟨0, 0, true⟩ : TState).at_end = true →
        transcode ⟨4, 1⟩ ⟨0, 0, true⟩ [3]
          = (false, ⟨0, 0, true⟩, [3], none)) :=
  C10_sticky_end ⟨4, 1⟩ ⟨0, 0, true⟩ [3] (by decide)

/-- Witness for C2 at concrete settings L = 4, O = 1: the first chunk of a
stream of 5 samples carries CF_IN = 0, CF_OUT = 1, rendered decimally. -/
theorem C2_crossfade_tags_witness :
    (Chunk.mk 0 1 5 [("CF_IN", "0"), ("CF_OUT", "1")]).cf_in
      = (if 0 < Settings.offs_for_block_idx_samples ⟨4, 1⟩
            (Settings.idx ⟨4, 1⟩ 0 0)
         then Settings.overlap_samples ⟨4, 1⟩ else 0)
  ∧ (Chunk.mk 0 1 5 [("CF_IN", "0"), ("CF_OUT", "1")]).cf_out
      = (if (⟨5, 1, false⟩ : TState).at_end then 0
         else Settings.overlap_samples ⟨4, 1⟩)
  ∧ (Chunk.mk 0 1 5 [("CF_IN", "0"), ("CF_OUT", "1")]).tags
      = [("CF_IN", Nat.repr
            (Chunk.mk 0 1 5 [("CF_IN", "0"), ("CF_OUT", "1")]).cf_in),
         ("CF_OUT", Nat.repr
            (Chunk.mk 0 1 5 [("CF_IN", "0"), ("CF_OUT", "1")]).cf_out)] :=
  C2_crossfade_tags ⟨4, 1⟩ ⟨0, 0, false⟩ ⟨5, 1, false⟩ [5] []
    (Chunk.mk 0 1 5 [("CF_IN", "0"), ("CF_OUT", "1")]) (by decide)

/-- C3 counterexample: with L = 4, O = 1 (total L+2O = 6) and a 15-sample
input stream, the planner produces 4 chunks whose encoder feed sizes are
[5, 6, 6, 1].  Chunk 0 is not the last chunk yet receives 5 = L+O samples,
not L+2O = 6, refuting the claim that every chunk except possibly the last
is fed exactly L+2O samples. -/
theorem C3_counterexample :
    (run_transcode 5 ⟨4, 1⟩ ⟨0, 0, false⟩ [5, 5, 5, 0]).map Chunk.n_fed
        = [5, 6, 6, 1]
  ∧ Settings.total_length_samples ⟨4, 1⟩ = 6
  ∧ ¬ (∀ k, k + 1 < (run_transcode 5 ⟨4, 1⟩ ⟨0, 0, false⟩ [5, 5, 5, 0]).length →
        ((run_transcode 5 ⟨4, 1⟩ ⟨0, 0, false⟩ [5, 5, 5, 0]).map
            Chunk.n_fed).getD k 0
          = Settings.total_length_samples ⟨4, 1⟩) := by
  refine ⟨by decide, by decide, fun hall => ?_⟩
  have h0 := hall 0 (by decide)
  revert h0
  decide

/-- C3 (amended): every chunk of index i >= 1 whose final read is served in
full receives exactly L+2O samples; the chunk of index 0 (starting at
offset 0) receives exactly L+O samples when served in full.  (The last
chunk, whose final read comes up short, receives fewer.) -/
theorem C3_amended_chunk_sizes (S : Settings) (i r : Nat) (rest : List Nat)
    (hL : 1 ≤ S.length_samples) (hO : 1 ≤ S.overlap_samples)
    (hi : 1 ≤ i) (hr : S.length_samples + S.overlap_samples ≤ r) :
    transcode S ⟨i * (S.length_samples + S.overlap_samples),
        S.overlap_samples, false⟩ (r :: rest)
      = (true, ⟨(i + 1) * (S.length_samples + S.overlap_samples),
            S.overlap_samples, false⟩, rest,
         some { cf_in := S.overlap_samples, cf_out := S.overlap_samples,
                n_fed := S.total_length_samples,
                tags := [("CF_IN", Nat.repr S.overlap_samples),
                         ("CF_OUT", Nat.repr S.overlap_samples)] })
  ∧ transcode S ⟨0, 0, false⟩ (r :: rest)
      = (true, ⟨S.length_samples + S.overlap_samples, S.overlap_samples,
            false⟩, rest,
         some { cf_in := 0, cf_out := S.overlap_samples,
                n_fed := S.length_samples + S.overlap_samples,
                tags := [("CF_IN", Nat.repr 0),
                         ("CF_OUT", Nat.repr S.overlap_samples)] }) := by
  have hn : 0 < S.length_samples + S.overlap_samples := by omega
  constructor
  · -- interior chunk i >= 1
    have hOle : S.overlap_samples
        ≤ i * (S.length_samples + S.overlap_samples) := by
      have := Nat.le_mul_of_pos_left
        (S.length_samples + S.overlap_samples) hi
      omega
    have hp : read_offs (i * (S.length_samples + S.overlap_samples))
        S.overlap_samples
        = i * (S.length_samples + S.overlap_samples) - S.overlap_samples :=
      read_offs_eq _ _
    have hpO : i * (S.length_samples + S.overlap_samples)
        - S.overlap_samples + S.overlap_samples
        = i * (S.length_samples + S.overlap_samples) := by omega
    have hdiv : i * (S.length_samples + S.overlap_samples)
        / (S.length_samples + S.overlap_samples) = i := by
      rw [Nat.mul_comm]
      exact Nat.mul_div_cancel_left i hn
    have hstart : S.offs_for_block_idx_samples i
        = i * (S.length_samples + S.overlap_samples) - S.overlap_samples := by
      rw [offs_for_eq, Nat.mul_comm]
    have hidx : S.idx (i * (S.length_samples + S.overlap_samples))
        S.overlap_samples = i := by
      rw [idx_def, hp, hpO, hdiv, hstart]
      simp
    have hsk : skip_loop S
        (S.offs_for_block_idx_samples
          (S.idx (i * (S.length_samples + S.overlap_samples))
            S.overlap_samples))
        (r :: rest)
        (i * (S.length_samples + S.overlap_samples)) S.overlap_samples
        = (true, i * (S.length_samples + S.overlap_samples),
            S.overlap_samples, r :: rest) := by
      apply skip_loop_no_entry
      rw [hidx, hstart]
      omega
    rw [transcode_skip_ok S ⟨i * (S.length_samples + S.overlap_samples),
        S.overlap_samples, false⟩ (r :: rest) (r :: rest)
        (i * (S.length_samples + S.overlap_samples)) S.overlap_samples rfl
        hsk]
    rw [transcode_read_eq, hidx, hstart, offs_end_eq]
    have hoend : (S.length_samples + S.overlap_samples) * (i + 1)
        - i * (S.length_samples + S.overlap_samples)
        = S.length_samples + S.overlap_samples := by
      have hmul : (S.length_samples + S.overlap_samples) * (i + 1)
          = i * (S.length_samples + S.overlap_samples)
            + (S.length_samples + S.overlap_samples) := by ring
      omega
    simp only [List.headD_cons, List.tail_cons, hoend]
    rw [Nat.min_eq_right hr]
    have hz : ¬ (S.overlap_samples
        + (S.length_samples + S.overlap_samples) = 0) := by omega
    rw [if_neg hz]
    have hsh : ¬ (S.length_samples + S.overlap_samples
        < S.length_samples + S.overlap_samples) := by omega
    have hge : S.length_samples + S.overlap_samples
        ≤ i * (S.length_samples + S.overlap_samples) :=
      Nat.le_mul_of_pos_left _ hi
    have hstart_ne : ¬ (i * (S.length_samples + S.overlap_samples)
        - S.overlap_samples = 0) := by omega
    simp only [hsh, if_false, hstart_ne, decide_eq_true_eq]
    have hoffs2 : i * (S.length_samples + S.overlap_samples)
        + (S.length_samples + S.overlap_samples)
        = (i + 1) * (S.length_samples + S.overlap_samples) := by ring
    have htot : S.overlap_samples
        + (S.length_samples + S.overlap_samples)
        = S.total_length_samples := by
      unfold Settings.total_length_samples
      omega
    rw [hoffs2, htot]
    simp
  · -- chunk 0 from the initial state
    have hp0 : read_offs 0 0 = 0 := by rw [read_offs_eq]
    have hdiv0 : S.overlap_samples / (S.length_samples + S.overlap_samples)
        = 0 := Nat.div_eq_of_lt (by omega)
    have hstart0 : S.offs_for_block_idx_samples 0 = 0 := by
      rw [offs_for_eq]
      omega
    have hidx0 : S.idx 0 0 = 0 := by
      rw [idx_def, hp0]
      simp only [Nat.zero_add, hdiv0, hstart0]
      simp
    have hsk0 : skip_loop S
        (S.offs_for_block_idx_samples (S.idx 0 0)) (r :: rest) 0 0
        = (true, 0, 0, r :: rest) := by
      apply skip_loop_no_entry
      rw [hidx0, hstart0]
      omega
    rw [transcode_skip_ok S ⟨0, 0, false⟩ (r :: rest) (r :: rest) 0 0 rfl
      hsk0]
    rw [transcode_read_eq, hidx0, hstart0, offs_end_eq]
    have hoend0 : (S.length_samples + S.overlap_samples) * (0 + 1) - 0
        = S.length_samples + S.overlap_samples := by omega
    simp only [hoend0]
    simp only [List.headD_cons, List.tail_cons]
    simp only [Nat.min_eq_right hr]
    have hx : ¬ (S.length_samples + S.overlap_samples = 0) := by omega
    simp [hx]

/-- Witness for the amended C3 at L = 4, O = 1, i = 1, a full read of 5
samples: the interior chunk is fed 6 = L+2O samples and the first chunk 5
= L+O samples. -/
theorem C3_amended_chunk_sizes_witness :
    transcode ⟨4, 1⟩ ⟨1 * (4 + 1), 1, false⟩ [5]
      = (true, ⟨(1 + 1) * (4 + 1), 1, false⟩, [],
         some { cf_in := 1, cf_out := 1,
                n_fed := Settings.total_length_samples ⟨4, 1⟩,
                tags := [("CF_IN", Nat.repr 1), ("CF_OUT", Nat.repr 1)] })
  ∧ transcode ⟨4, 1⟩ ⟨0, 0, false⟩ [5]
      = (true, ⟨4 + 1, 1, false⟩, [],
         some { cf_in := 0, cf_out := 1, n_fed := 4 + 1,
                tags := [("CF_IN", Nat.repr 0), ("CF_OUT", Nat.repr 1)] }) :=
  C3_amended_chunk_sizes ⟨4, 1⟩ 1 5 [] (by decide) (by decide) (by decide)
    (by decide)

/-- The tail correction is min(final_padding, frame_size - n_src) also
when written unconditionally: for a full frame it is 0. -/
theorem add_ite_min (fs n fp : Nat) :
    (if n < fs then min fp (fs - n) else 0) = min fp (fs - n) := by
  split
  · rfl
  · omega

/-- Once the lead-in has been emitted (first = false), the code's granule
writes follow the claim's counter recurrence exactly. -/
theorem encode_frames_g_not_first (fs mul : Nat) :
    ∀ (ns : List Nat) (g : Int) (fp : Nat),
      (encode_frames_g fs mul ⟨false, g, fp⟩ ns).2
        = claim_writes fs mul g fp ns := by
  intro ns
  induction ns with
  | nil => intro g fp; rfl
  | cons n rest ih =>
    intro g fp
    simp only [encode_frames_g, encode_frame_g, claim_writes]
    simp only [Bool.false_eq_true, if_false, add_ite_min]
    rw [ih]
    simp

/-- The claim's counter writes are monotone non-decreasing and bounded
below by the initial counter value times granule_mul. -/
theorem claim_writes_mono (fs mul : Nat) :
    ∀ (ns : List Nat) (g : Int) (fp : Nat),
      (claim_writes fs mul g fp ns).Chain' (· ≤ ·)
      ∧ ∀ x ∈ claim_writes fs mul g fp ns, g * (mul : Int) ≤ x := by
  intro ns
  induction ns with
  | nil =>
    intro g fp
    exact ⟨by simp [claim_writes], by simp [claim_writes]⟩
  | cons n rest ih =>
    intro g fp
    obtain ⟨ihc, ihb⟩ :=
      ih (g + (n : Int) + ((min fp (fs - n) : Nat) : Int))
        (fp - min fp (fs - n))
    have hg2 : g ≤ g + (n : Int) + ((min fp (fs - n) : Nat) : Int) := by
      have h1 : (0 : Int) ≤ (n : Int) := Int.natCast_nonneg n
      have h2 : (0 : Int) ≤ ((min fp (fs - n) : Nat) : Int) :=
        Int.natCast_nonneg _
      omega
    have hmul0 : (0 : Int) ≤ (mul : Int) := Int.natCast_nonneg mul
    have hw : g * (mul : Int)
        ≤ (g + (n : Int) + ((min fp (fs - n) : Nat) : Int)) * (mul : Int) :=
      mul_le_mul_of_nonneg_right hg2 hmul0
    constructor
    · rw [claim_writes]
      refine (List.chain'_cons').mpr ⟨?_, ihc⟩
      intro y hy
      exact ihb y (List.mem_of_mem_head? hy)
    · intro x hx
      rw [claim_writes] at hx
      rcases List.mem_cons.mp hx with hx | hx
      · rw [hx]; exact hw
      · exact le_trans hw (ihb x hx)

/-- C4: within one Encoder instance the granule values passed to
OggOpusMuxer::write_frame never decrease, and each written value is the
native-rate counter -- initialized to granule_offset and advanced per
frame by its sample count plus the min(final_padding, frame_size - n_src)
tail correction, the first call being preceded by the one-frame lead-in --
multiplied by granule_mul = 48000 / rate. -/
theorem C4_granule_monotone (rate : Nat) (g0 : Int) (ps : Nat)
    (ns : List Nat) :
    (encode_frames_g (frame_size rate) (granule_mul rate)
        ⟨true, g0, ps⟩ ns).2
      = claim_writes (frame_size rate) (granule_mul rate) g0 ps
          (lead_frames (frame_size rate) ns)
  ∧ ((encode_frames_g (frame_size rate) (granule_mul rate)
        ⟨true, g0, ps⟩ ns).2).Chain' (· ≤ ·) := by
  have heq : (encode_frames_g (frame_size rate) (granule_mul rate)
        ⟨true, g0, ps⟩ ns).2
      = claim_writes (frame_size rate) (granule_mul rate) g0 ps
          (lead_frames (frame_size rate) ns) := by
    cases ns with
    | nil => rfl
    | cons n rest =>
      simp only [encode_frames_g, encode_frame_g, lead_frames, claim_writes]
      simp only [if_true, add_ite_min]
      rw [encode_frames_g_not_first]
      simp only [Nat.sub_self, Nat.min_zero, Nat.cast_zero, Nat.sub_zero,
        add_zero]
      rfl
  refine ⟨heq, ?_⟩
  rw [heq]
  exact (claim_writes_mono (frame_size rate) (granule_mul rate)
    (lead_frames (frame_size rate) ns) g0 ps).1

/-- C5: the staging-buffer copy in the float encode loop transfers n_src
samples, not min(frame_size - buf_ptr, n_src).  At rate 48000
(frame_size 960), a call with buf_ptr = 100 and n_src = 2000 copies 2000
samples starting at staging offset 100, although only 860 fit in the
frame; 2100 samples (4200 floats at 2 channels) overrun the one-frame
staging buffer (RAW_BUF_SIZE = 2048 floats) whose adequacy the
constructor asserts. -/
theorem C5_copy_length_bug :
    encode_float (frame_size 48000) 100 2000
      = [EncEv.copy 100 2000 2000,
         EncEv.frame true false 2000,
         EncEv.frame false false 1140,
         EncEv.copy 0 180 180]
  ∧ min (frame_size 48000 - 100) 2000 = 860
  ∧ (2000 : Nat) ≠ 860
  ∧ (100 + 2000) * 2 > 2048 := by decide

/-- C6 counterexample: at rate 48000, encoding exactly one full frame
(n_src = 960 = frame_size, buf_ptr = 0) encodes it directly from src with
last_in_seq = false, although it is the last full frame visible from the
call (after consuming it, 0 < frame_size samples remain), where the claim
requires last_in_seq = true. -/
theorem C6_counterexample :
    encode_float (frame_size 48000) 0 960
      = [EncEv.frame false false 960]
  ∧ 960 - 960 < frame_size 48000 := by decide

/-- C6 (amended): the last_in_seq flag passed for a full frame equals
(n_src < frame_size) evaluated on the input remaining before the frame is
consumed; consequently a directly encoded frame (which requires
n_src >= frame_size) always receives last_in_seq = false, and only a
frame flushed from the staging buffer can receive true. -/
theorem C6_amended_last_in_seq (fs bp n : Nat) (b l : Bool) (m : Nat)
    (hm : EncEv.frame b l m ∈ encode_float fs bp n) :
    l = decide (m < fs) ∧ (b = false → l = false) := by
  suffices hgo : ∀ (fuel nn bb : Nat),
      EncEv.frame b l m ∈ encode_float_evs fs fuel nn bb →
      l = decide (m < fs) ∧ (b = false → l = false) by
    exact hgo n n bp hm
  intro fuel
  induction fuel with
  | zero => intro nn bb hmem; simp [encode_float_evs] at hmem
  | succ fuel ih =>
    intro nn bb hmem
    rw [encode_float_evs] at hmem
    by_cases h0 : nn = 0
    · simp [h0] at hmem
    · simp only [h0, if_false] at hmem
      by_cases hd : min (fs - bb) nn = fs
      · simp only [hd, if_true, List.mem_cons] at hmem
        rcases hmem with hev | hmem
        · obtain ⟨hb, hl, hm2⟩ := EncEv.frame.inj hev
          subst hb; subst hl; subst hm2
          have hge : ¬ (m < fs) := by omega
          simp [hge]
        · exact ih _ _ hmem
      · simp only [hd, if_false, List.mem_cons] at hmem
        rcases hmem with hev | hmem
        · cases hev
        · by_cases hfl : bb + min (fs - bb) nn = fs
          · simp only [hfl, if_true, List.mem_cons] at hmem
            rcases hmem with hev | hmem
            · obtain ⟨hb, hl, hm2⟩ := EncEv.frame.inj hev
              subst hb; subst hl; subst hm2
              exact ⟨rfl, fun hc => Bool.noConfusion hc⟩
            · exact ih _ _ hmem
          · simp only [hfl, if_false] at hmem
            exact ih _ _ hmem

/-- Witness for the amended C6: the single directly-encoded frame of a
960-sample call at rate 48000 carries last_in_seq = false = (960 < 960). -/
theorem C6_amended_last_in_seq_witness :
    (false = decide (960 < frame_size 48000))
  ∧ (false = false → false = false) :=
  C6_amended_last_in_seq (frame_size 48000) 0 960 false false 960
    (by decide)

/-- C7: the assertion in Settings::rate (chunk_transcoder.hpp) rejects the
valid Opus rate 8000 (it tests 80000 instead, a typo flagged in the
repository's own documentation), while accepting the other four rates and
the bogus 80000. -/
theorem C7_rate_assertion_typo :
    rate_assertion 8000 = false
  ∧ rate_assertion 12000 = true
  ∧ rate_assertion 16000 = true
  ∧ rate_assertion 24000 = true
  ∧ rate_assertion 48000 = true
  ∧ rate_assertion 80000 = true := by decide

end OG
